import Mathlib

/-!
Verification of the comat color template transformer (src/cfstr.rs).

The transformer reads a template left to right.  Outside a brace token it
copies literal characters, handles the escapes left-left and right-right,
and on a single opening brace either errors (end of input), emits an empty
placeholder, or starts accumulating a token.  Inside a token it accumulates
characters until a closing brace, then resolves the accumulated name
against the style vocabulary (style, value-with-style, or pass-through).

Strings are modelled as lists of characters; the transformer is the
function run below, driven by a Mode that records whether we are at top
level or inside an open brace token with its scratch buffer.
-/

set_option maxRecDepth 4096

deriving instance DecidableEq for Except

/-- Errors of the transform: unexpected eof and unexpected text, the two
error sites of CFStr::parse. -/
inductive CErr where
  | eof
  | text
deriving DecidableEq, Repr

/-- The style vocabulary of name2ansi in src/cfstr.rs, as an association
list in the source's order. -/
def vocab : List (String × String) := [
  ("black", "\x1b[0;34;30m"),
  ("red", "\x1b[0;34;31m"),
  ("green", "\x1b[0;34;32m"),
  ("yellow", "\x1b[0;34;33m"),
  ("blue", "\x1b[0;34;34m"),
  ("magenta", "\x1b[0;34;35m"),
  ("cyan", "\x1b[0;34;36m"),
  ("white", "\x1b[0;34;37m"),
  ("default", "\x1b[0;34;39m"),
  ("bold_black", "\x1b[1;34;30m"),
  ("bold_red", "\x1b[1;34;31m"),
  ("bold_green", "\x1b[1;34;32m"),
  ("bold_yellow", "\x1b[1;34;33m"),
  ("bold_blue", "\x1b[1;34;34m"),
  ("bold_magenta", "\x1b[1;34;35m"),
  ("bold_cyan", "\x1b[1;34;36m"),
  ("bold_white", "\x1b[1;34;37m"),
  ("bold_default", "\x1b[1;34;39m"),
  ("on_black_bold", "\x1b[1;34;40m"),
  ("on_red_bold", "\x1b[1;34;41m"),
  ("on_green_bold", "\x1b[1;34;42m"),
  ("on_yellow_bold", "\x1b[1;34;43m"),
  ("on_blue_bold", "\x1b[1;34;44m"),
  ("on_magenta_bold", "\x1b[1;44;35m"),
  ("on_cyan_bold", "\x1b[1;34;46m"),
  ("on_white_bold", "\x1b[1;34;47m"),
  ("on_default_bold", "\x1b[1;34;49m"),
  ("on_black", "\x1b[0;34;40m"),
  ("on_red", "\x1b[0;34;41m"),
  ("on_green", "\x1b[0;34;42m"),
  ("on_yellow", "\x1b[0;34;43m"),
  ("on_blue", "\x1b[0;34;44m"),
  ("on_magenta", "\x1b[0;44;35m"),
  ("on_cyan", "\x1b[0;34;46m"),
  ("on_white", "\x1b[0;34;47m"),
  ("on_default", "\x1b[0;34;49m"),
  ("reset", "\x1b[0m"),
  ("dim", "\x1b[2m"),
  ("italic", "\x1b[3m"),
  ("underline", "\x1b[24m"),
  ("blinking", "\x1b[5m"),
  ("hide", "\x1b[8m"),
  ("strike", "\x1b[9m"),
  ("bold", "\x1b[1m")]

/-- Resolve a style name against the vocabulary; the match of name2ansi in
the source (first match wins, keys are distinct). -/
def name2ansi (name : String) : Option String := vocab.lookup name

/-- Split a character list at the first occurrence of a separator, as
str::split_once in Rust: none when the separator does not occur. -/
def splitOnce (c : Char) : List Char → Option (List Char × List Char)
  | [] => none
  | a :: rest =>
    if a = c then some ([], rest)
    else match splitOnce c rest with
      | some (x, y) => some (a :: x, y)
      | none => none

/-- Characters of the reset sequence, looked up from the vocabulary as the
source does with name2ansi of the word reset, unwrapped. -/
def rst : List Char := ((name2ansi "reset").getD "").data

/-- Resolution of a completed brace token, the closing-brace arm of the
inner loop of CFStr::parse: a vocabulary name emits its ANSI string; else
a first-colon split whose tail is a vocabulary name emits reset, the style,
the re-delimited body, and reset; else the token passes through verbatim
braces included. -/
def resolveTemp (temp out : List Char) : List Char :=
  match name2ansi (String.mk temp) with
  | some a => out ++ a.data
  | none =>
    match splitOnce ':' temp with
    | some (b, t) =>
      match name2ansi (String.mk t) with
      | some a => out ++ rst ++ a.data ++ '{' :: (b ++ '}' :: rst)
      | none => out ++ '{' :: (temp ++ ['}'])
    | none => out ++ '{' :: (temp ++ ['}'])

/-- Parser mode: top level, or inside an open brace token holding the
scratch buffer accumulated so far. -/
inductive Mode where
  | top
  | tok (temp : List Char)
deriving DecidableEq, Repr

/-- The transform loop of CFStr::parse over the remaining input, the
current mode and the output accumulated so far.  At top level: a literal
character is copied; an opening brace peeks the next character (another
opening brace escapes it, a closing brace emits an empty placeholder, end
of input errors, anything else opens a token); a closing brace must be
doubled, else the transform errors.  Inside a token, characters accumulate
until a closing brace resolves the token; end of input inside a token ends
the loop with the scratch buffer dropped. -/
def run : List Char → Mode → List Char → Except CErr (List Char)
  | [], _, out => .ok out
  | c :: rest, .tok temp, out =>
    if c = '}' then run rest .top (resolveTemp temp out)
    else run rest (.tok (temp ++ [c])) out
  | c :: rest, .top, out =>
    if c = '{' then
      match rest with
      | [] => .error .eof
      | c2 :: r =>
        if c2 = '{' then run r .top (out ++ ['{'])
        else if c2 = '}' then run r .top (out ++ ['{', '}'])
        else run r (.tok [c2]) out
    else if c = '}' then
      match rest with
      | c2 :: r => if c2 = '}' then run r .top (out ++ ['}']) else .error .text
      | [] => .error .text
    else run rest .top (out ++ [c])

namespace CFStr

/-- The transform of CFStr::parse: run the loop from top level on the
characters of the template, with an empty output buffer. -/
def parse (s : String) : Except CErr String :=
  (run s.data .top []).map String.mk

end CFStr

/-- True when the mode is inside an open brace token. -/
def isTok : Mode → Bool
  | .top => false
  | .tok _ => true

/-- Specification-side scan for the closing-brace error, following the
spec's words: scanning left to right while tracking whether the scanner is
inside an open brace token, report true exactly when a closing brace is
encountered at top level (outside any open token) that is not immediately
followed by another closing brace. -/
def specBadClosing : List Char → Bool → Bool
  | [], _ => false
  | c :: rest, true =>
    if c = '}' then specBadClosing rest false else specBadClosing rest true
  | c :: rest, false =>
    if c = '{' then
      match rest with
      | [] => false
      | c2 :: r =>
        if c2 = '{' then specBadClosing r false
        else if c2 = '}' then specBadClosing r false
        else specBadClosing r true
    else if c = '}' then
      match rest with
      | c2 :: r => if c2 = '}' then specBadClosing r false else true
      | [] => true
    else specBadClosing rest false

/-- Every opening brace in the list is eventually followed by a closing
brace: at each position holding an opening brace, a closing brace occurs
somewhere in the remainder. -/
def closedFrom : List Char → Bool
  | [] => true
  | c :: rest => (c != '{' || decide ('}' ∈ rest)) && closedFrom rest

/-- No two consecutive opening braces anywhere in the list, so the
template never uses the doubled-opening-brace escape. -/
def noDouble : List Char → Bool
  | [] => true
  | [_] => true
  | a :: b :: rest => !(a == '{' && b == '{') && noDouble (b :: rest)

/-- Membership follows from a successful association-list lookup. -/
theorem lookup_mem {l : List (String × String)} {k v : String}
    (h : l.lookup k = some v) : (k, v) ∈ l := by
  induction l with
  | nil => simp [List.lookup] at h
  | cons p l ih =>
    obtain ⟨k0, v0⟩ := p
    rw [List.lookup] at h
    by_cases hk : k = k0
    · subst hk
      simp at h
      subst h
      exact List.mem_cons_self ..
    · rw [beq_false_of_ne hk] at h
      exact List.mem_cons_of_mem _ (ih h)

/-- Every vocabulary key is nonempty and free of braces and colons, and
every vocabulary value is free of opening braces. -/
theorem vocab_entry_facts : ∀ p ∈ vocab,
    (p.1.data ≠ [] ∧ ':' ∉ p.1.data ∧ '{' ∉ p.1.data ∧ '}' ∉ p.1.data) ∧
      '{' ∉ p.2.data := by decide

/-- A successful style lookup constrains the characters of the name. -/
theorem name2ansi_key_facts {s a : String} (h : name2ansi s = some a) :
    s.data ≠ [] ∧ ':' ∉ s.data ∧ '{' ∉ s.data ∧ '}' ∉ s.data :=
  (vocab_entry_facts _ (lookup_mem h)).1

/-- A successful style lookup yields a value with no opening brace. -/
theorem name2ansi_val_facts {s a : String} (h : name2ansi s = some a) :
    '{' ∉ a.data :=
  (vocab_entry_facts _ (lookup_mem h)).2

/-- A name containing a colon is not in the vocabulary. -/
theorem name2ansi_colon_none {l : List Char} (h : ':' ∈ l) :
    name2ansi (String.mk l) = none := by
  cases hl : name2ansi (String.mk l) with
  | none => rfl
  | some a => exact absurd h (name2ansi_key_facts hl).2.1

/-- Step equation: a literal character at top level is copied. -/
theorem run_top_char {c : Char} (rest out : List Char) (h1 : c ≠ '{')
    (h2 : c ≠ '}') : run (c :: rest) .top out = run rest .top (out ++ [c]) := by
  rw [run.eq_def]
  simp [h1, h2]

/-- Step equation: an opening brace at the end of input errors. -/
theorem run_top_open_nil (out : List Char) :
    run ['{'] .top out = .error .eof := by
  rw [run.eq_def]
  simp

/-- Step equation: a doubled opening brace escapes to a single one. -/
theorem run_top_open_open (rest out : List Char) :
    run ('{' :: '{' :: rest) .top out = run rest .top (out ++ ['{']) := by
  rw [run.eq_def]
  simp

/-- Step equation: an opening brace directly followed by a closing one
emits an empty placeholder. -/
theorem run_top_open_close (rest out : List Char) :
    run ('{' :: '}' :: rest) .top out = run rest .top (out ++ ['{', '}']) := by
  rw [run.eq_def]
  simp

/-- Step equation: an opening brace followed by an ordinary character
opens a token seeded with that character. -/
theorem run_top_open_tok {c : Char} (rest out : List Char) (h1 : c ≠ '{')
    (h2 : c ≠ '}') : run ('{' :: c :: rest) .top out = run rest (.tok [c]) out := by
  rw [run.eq_def]
  simp [h1, h2]

/-- Step equation: a doubled closing brace escapes to a single one. -/
theorem run_top_close_close (rest out : List Char) :
    run ('}' :: '}' :: rest) .top out = run rest .top (out ++ ['}']) := by
  rw [run.eq_def]
  simp

/-- Step equation: a closing brace not followed by another one errors. -/
theorem run_top_close_bad {c : Char} (rest out : List Char) (h : c ≠ '}') :
    run ('}' :: c :: rest) .top out = .error .text := by
  rw [run.eq_def]
  simp [h]

/-- Step equation: a closing brace at the end of input errors. -/
theorem run_top_close_nil (out : List Char) :
    run ['}'] .top out = .error .text := by
  rw [run.eq_def]
  simp

/-- An open token whose remaining input has no closing brace swallows the
rest of the input and the transform ends with the output unchanged. -/
theorem run_tok_eof {xs : List Char} (temp out : List Char)
    (h : '}' ∉ xs) : run xs (.tok temp) out = .ok out := by
  induction xs generalizing temp with
  | nil => rfl
  | cons c rest ih =>
    have hc : c ≠ '}' := fun hc => h (hc ▸ List.mem_cons_self ..)
    rw [run, if_neg hc]
    exact ih _ fun hm => h (List.mem_cons_of_mem _ hm)

/-- An open token consumes characters up to the first closing brace, then
resolves the accumulated buffer and returns to top level. -/
theorem run_tok_close {xs : List Char} (ys temp out : List Char)
    (h : '}' ∉ xs) :
    run (xs ++ '}' :: ys) (.tok temp) out =
      run ys .top (resolveTemp (temp ++ xs) out) := by
  induction xs generalizing temp with
  | nil => simp [run]
  | cons c rest ih =>
    have hc : c ≠ '}' := fun hc => h (hc ▸ List.mem_cons_self ..)
    rw [List.cons_append, run, if_neg hc, ih _ fun hm => h (List.mem_cons_of_mem _ hm)]
    simp

/-- A run over brace-free input copies it verbatim onto the output. -/
theorem run_literal {xs : List Char} (out : List Char)
    (h : ∀ c ∈ xs, c ≠ '{' ∧ c ≠ '}') :
    run xs .top out = .ok (out ++ xs) := by
  induction xs generalizing out with
  | nil => simp [run]
  | cons c rest ih =>
    obtain ⟨h1, h2⟩ := h c (List.mem_cons_self ..)
    rw [run_top_char _ _ h1 h2, ih _ fun d hd => h d (List.mem_cons_of_mem _ hd)]
    simp

/-- A successful parse names a successful inner run and vice versa. -/
theorem parse_ok_iff {s : String} {o : String} :
    CFStr.parse s = .ok o ↔ run s.data .top [] = .ok o.data := by
  unfold CFStr.parse
  cases hr : run s.data .top [] with
  | ok v =>
    constructor
    · intro h
      simp [Except.map] at h
      rw [h.symm]
    · intro h
      cases h
      rfl
  | error e =>
    constructor
    · intro h
      simp [Except.map] at h
    · intro h
      cases h

/-- A parse reports an error exactly when the inner run does. -/
theorem parse_error_iff {s : String} {e : CErr} :
    CFStr.parse s = .error e ↔ run s.data .top [] = .error e := by
  unfold CFStr.parse
  cases hr : run s.data .top [] with
  | ok v =>
    constructor
    · intro h
      simp [Except.map] at h
    · intro h
      cases h
  | error e2 =>
    constructor
    · intro h
      simp [Except.map] at h
      rw [h]
    · intro h
      cases h
      rfl

/-- Splitting at the first separator of a list built around one separator
with a separator-free left part recovers exactly the two parts. -/
theorem splitOnce_append {B : List Char} (t : List Char) (h : ':' ∉ B) :
    splitOnce ':' (B ++ ':' :: t) = some (B, t) := by
  induction B with
  | nil => simp [splitOnce]
  | cons c rest ih =>
    have hc : c ≠ ':' := fun hc => h (hc ▸ List.mem_cons_self ..)
    rw [List.cons_append, splitOnce, if_neg hc,
      ih fun hm => h (List.mem_cons_of_mem _ hm)]

/-- Resolving a buffer that is exactly a vocabulary name appends the ANSI
string of that name. -/
theorem resolveTemp_style {S a : String} (out : List Char)
    (hS : name2ansi S = some a) :
    resolveTemp S.data out = out ++ a.data := by
  unfold resolveTemp
  have he : String.mk S.data = S := rfl
  rw [he, hS]

/-- Resolving a buffer of the shape body-colon-style, with a colon-free
body and a vocabulary style, appends reset, the style, the re-delimited
body, and reset. -/
theorem resolveTemp_vws {B : List Char} {S a : String} (out : List Char)
    (hS : name2ansi S = some a) (hB : ':' ∉ B) :
    resolveTemp (B ++ ':' :: S.data) out =
      out ++ rst ++ a.data ++ '{' :: (B ++ '}' :: rst) := by
  unfold resolveTemp
  rw [name2ansi_colon_none (by simp), splitOnce_append _ hB]
  have he : String.mk S.data = S := rfl
  dsimp only
  rw [he, hS]

/-- Resolving a buffer that is neither a vocabulary name nor a
body-colon-style with a vocabulary tail passes the token through with its
braces restored. -/
theorem resolveTemp_pass {X : List Char} (out : List Char)
    (hX : name2ansi (String.mk X) = none)
    (ht : ∀ b t, splitOnce ':' X = some (b, t) → name2ansi (String.mk t) = none) :
    resolveTemp X out = out ++ '{' :: (X ++ ['}']) := by
  unfold resolveTemp
  rw [hX]
  cases hs : splitOnce ':' X with
  | none => rfl
  | some p =>
    obtain ⟨b, t⟩ := p
    dsimp only
    rw [ht b t hs]

/-- C10: a template containing neither an opening nor a closing brace is
returned unchanged by the transform. -/
theorem brace_free_identity (T : String) (h1 : '{' ∉ T.data)
    (h2 : '}' ∉ T.data) : CFStr.parse T = .ok T := by
  rw [parse_ok_iff]
  have h := run_literal ([]) fun c hc =>
    ⟨fun e => h1 (e ▸ hc), fun e => h2 (e ▸ hc)⟩
  simpa using h

/-- Witness for C10 at a concrete brace-free template. -/
theorem brace_free_identity_witness :
    '{' ∉ ("hello world" : String).data ∧ '}' ∉ ("hello world" : String).data ∧
      CFStr.parse "hello world" = .ok "hello world" :=
  ⟨by decide, by decide, brace_free_identity "hello world" (by decide) (by decide)⟩

/-- C8: a template that is exactly one brace token whose content is a
vocabulary style name transforms to exactly the ANSI string of that name,
with nothing prepended or appended. -/
theorem style_token_exact (S a : String) (h : name2ansi S = some a) :
    CFStr.parse (String.mk ('{' :: (S.data ++ ['}']))) = .ok a := by
  rw [parse_ok_iff]
  obtain ⟨hne, -, hlb, hrb⟩ := name2ansi_key_facts h
  obtain ⟨s0, S2, hS⟩ := List.exists_cons_of_ne_nil hne
  have h0 : s0 ∈ S.data := by rw [hS]; exact List.mem_cons_self ..
  show run ('{' :: (S.data ++ ['}'])) .top [] = .ok a.data
  rw [hS, List.cons_append,
    run_top_open_tok _ _ (fun e => hlb (e ▸ h0)) (fun e => hrb (e ▸ h0)),
    run_tok_close _ _ _ (fun hm => hrb (hS ▸ List.mem_cons_of_mem _ hm))]
  have ht : ([s0] ++ S2 : List Char) = S.data := by rw [hS]; rfl
  rw [ht, run.eq_def]
  rw [resolveTemp_style _ h]
  rfl

/-- Witness for C8 at the style name red. -/
theorem style_token_exact_witness :
    name2ansi "red" = some "\x1b[0;34;31m" ∧
      CFStr.parse (String.mk ('{' :: (("red" : String).data ++ ['}']))) =
        .ok "\x1b[0;34;31m" :=
  ⟨by decide, style_token_exact "red" "\x1b[0;34;31m" (by decide)⟩

/-- C1 counterexample: the single character opening brace is a body with
no closing brace and no colon, yet the template made of it with style red
does not transform to the claimed re-styled value: the transform errors,
because the doubled opening brace is taken as an escape. -/
theorem value_with_style_counterexample :
    '}' ∉ ("\x7b" : String).data ∧ ':' ∉ ("\x7b" : String).data ∧
      name2ansi "red" = some "\x1b[0;34;31m" ∧
      CFStr.parse "\x7b\x7b:red\x7d" = .error CErr.text := by decide

/-- C1 amended: for a style name S of the vocabulary and a body B with no
closing brace, no colon, and not starting with an opening brace, the
value-with-style template transforms to reset, the ANSI string of S, the
re-delimited body, and reset. -/
theorem value_with_style_exact (S a : String) (B : List Char)
    (h : name2ansi S = some a) (hB1 : '}' ∉ B) (hB2 : ':' ∉ B)
    (hB3 : B.head? ≠ some '{') :
    CFStr.parse (String.mk ('{' :: (B ++ ':' :: S.data ++ ['}']))) =
      .ok (String.mk (rst ++ a.data ++ '{' :: (B ++ '}' :: rst))) := by
  rw [parse_ok_iff]
  obtain ⟨-, -, -, hrb⟩ := name2ansi_key_facts h
  show run ('{' :: (B ++ ':' :: S.data ++ ['}'])) .top [] = _
  have hnb : '}' ∉ B ++ ':' :: S.data := by
    intro hm
    rcases List.mem_append.mp hm with hm | hm
    · exact hB1 hm
    · rcases List.mem_cons.mp hm with hm | hm
      · exact absurd hm.symm (by decide)
      · exact hrb hm
  cases B with
  | nil =>
    rw [List.nil_append, List.cons_append,
      run_top_open_tok _ _ (by decide) (by decide)]
    have hsp : (S.data ++ ['}'] : List Char) = S.data ++ '}' :: [] := rfl
    rw [hsp, run_tok_close _ _ _ (fun hm => hrb hm)]
    rw [run.eq_def]
    rw [show ([':'] ++ S.data : List Char) = [] ++ ':' :: S.data from rfl,
      resolveTemp_vws _ h hB2]
    rfl
  | cons b B2 =>
    have hb1 : b ≠ '}' := fun e => hB1 (e ▸ List.mem_cons_self ..)
    have hb2 : b ≠ '{' := fun e => hB3 (by rw [List.head?, e])
    have hsh : ('{' :: ((b :: B2) ++ ':' :: S.data ++ ['}']) : List Char) =
        '{' :: b :: ((B2 ++ ':' :: S.data) ++ '}' :: []) := by simp
    rw [hsh, run_top_open_tok _ _ hb2 hb1]
    have hnb2 : '}' ∉ B2 ++ ':' :: S.data := by
      intro hm
      exact hnb (by
        rcases List.mem_append.mp hm with hm | hm
        · exact List.mem_append.mpr (.inl (List.mem_cons_of_mem _ hm))
        · exact List.mem_append.mpr (.inr hm))
    rw [run_tok_close _ _ _ hnb2, run.eq_def]
    rw [show ([b] ++ (B2 ++ ':' :: S.data) : List Char) =
      (b :: B2) ++ ':' :: S.data by simp, resolveTemp_vws _ h hB2]
    rfl

/-- Witness for C1 amended at body thing and style red. -/
theorem value_with_style_exact_witness :
    CFStr.parse (String.mk ('{' :: (("thing" : String).data ++ ':' ::
        ("red" : String).data ++ ['}']))) =
      .ok (String.mk (rst ++ ("\x1b[0;34;31m" : String).data ++ '{' ::
        (("thing" : String).data ++ '}' :: rst))) :=
  value_with_style_exact "red" "\x1b[0;34;31m" ("thing" : String).data
    (by decide) (by decide) (by decide) (by decide)

/-- C9: a brace token whose nonempty content has no closing brace, opens
as a token (its first character is not an opening brace), is not a
vocabulary name, and whose first-colon split does not end in a vocabulary
name, passes through the transform byte-identical, braces included. -/
theorem passthrough_token_exact (X : List Char) (h0 : X ≠ [])
    (h1 : '}' ∉ X) (h2 : X.head? ≠ some '{')
    (h3 : name2ansi (String.mk X) = none)
    (h4 : ∀ b t, splitOnce ':' X = some (b, t) → name2ansi (String.mk t) = none) :
    CFStr.parse (String.mk ('{' :: (X ++ ['}']))) =
      .ok (String.mk ('{' :: (X ++ ['}']))) := by
  rw [parse_ok_iff]
  obtain ⟨x0, X2, hX⟩ := List.exists_cons_of_ne_nil h0
  subst hX
  have hx1 : x0 ≠ '}' := fun e => h1 (e ▸ List.mem_cons_self ..)
  have hx2 : x0 ≠ '{' := fun e => h2 (by rw [List.head?, e])
  show run ('{' :: ((x0 :: X2) ++ ['}'])) .top [] = .ok ('{' :: ((x0 :: X2) ++ ['}']))
  rw [List.cons_append, run_top_open_tok _ _ hx2 hx1]
  have hnb : '}' ∉ X2 := fun hm => h1 (List.mem_cons_of_mem _ hm)
  have hsp : (X2 ++ ['}'] : List Char) = X2 ++ '}' :: [] := rfl
  rw [hsp, run_tok_close _ _ _ hnb, run.eq_def]
  rw [show ([x0] ++ X2 : List Char) = x0 :: X2 from rfl,
    resolveTemp_pass _ h3 h4]
  rfl

/-- Witness for C9 at the format-spec token content n colon dot zero. -/
theorem passthrough_token_exact_witness :
    CFStr.parse (String.mk ('{' :: (("n:.0" : String).data ++ ['}']))) =
      .ok (String.mk ('{' :: (("n:.0" : String).data ++ ['}']))) :=
  passthrough_token_exact ("n:.0" : String).data (by decide) (by decide)
    (by decide) (by decide)
    (by
      intro b t h
      have hs : splitOnce ':' ("n:.0" : String).data = some (['n'], ['.', '0']) := by
        decide
      rw [hs] at h
      cases h
      decide)

/-- C2 counterexample: the background magenta entry does not follow the
claimed pattern: the vocabulary maps it to the transposed field order and
not to the pattern value. -/
theorem background_table_counterexample :
    name2ansi "on_magenta" = some "\x1b[0;44;35m" ∧
      ("\x1b[0;44;35m" : String) ≠ "\x1b[0;34;45m" := by decide

/-- C2 amended: the eighteen background entries of the vocabulary, with
the exact bytes of the source: every color follows the claimed pattern
except magenta, whose two entries transpose the two middle fields. -/
theorem background_table_exact :
    name2ansi "on_black" = some "\x1b[0;34;40m" ∧
    name2ansi "on_red" = some "\x1b[0;34;41m" ∧
    name2ansi "on_green" = some "\x1b[0;34;42m" ∧
    name2ansi "on_yellow" = some "\x1b[0;34;43m" ∧
    name2ansi "on_blue" = some "\x1b[0;34;44m" ∧
    name2ansi "on_magenta" = some "\x1b[0;44;35m" ∧
    name2ansi "on_cyan" = some "\x1b[0;34;46m" ∧
    name2ansi "on_white" = some "\x1b[0;34;47m" ∧
    name2ansi "on_default" = some "\x1b[0;34;49m" ∧
    name2ansi "on_black_bold" = some "\x1b[1;34;40m" ∧
    name2ansi "on_red_bold" = some "\x1b[1;34;41m" ∧
    name2ansi "on_green_bold" = some "\x1b[1;34;42m" ∧
    name2ansi "on_yellow_bold" = some "\x1b[1;34;43m" ∧
    name2ansi "on_blue_bold" = some "\x1b[1;34;44m" ∧
    name2ansi "on_magenta_bold" = some "\x1b[1;44;35m" ∧
    name2ansi "on_cyan_bold" = some "\x1b[1;34;46m" ∧
    name2ansi "on_white_bold" = some "\x1b[1;34;47m" ∧
    name2ansi "on_default_bold" = some "\x1b[1;34;49m" := by decide

/-- C3: at the template made of an empty body and the style reset, the
transform emits reset twice before the empty placeholder, because the
value-with-style bracketing emits reset followed by the ANSI string of the
named style, and the named style here is itself reset.  The repository's
own test resetty asserts a single leading reset, which this output
contradicts. -/
theorem empty_body_reset_double :
    CFStr.parse "\x7b:reset\x7d" = .ok "\x1b[0m\x1b[0m\x7b\x7d\x1b[0m" ∧
      ("\x1b[0m\x1b[0m\x7b\x7d\x1b[0m" : String) ≠ "\x1b[0m\x7b\x7d\x1b[0m" := by
  decide

/-- Step equation: a closing brace inside a token resolves the buffer. -/
theorem run_tok_close_step (rest temp out : List Char) :
    run ('}' :: rest) (.tok temp) out = run rest .top (resolveTemp temp out) := by
  rw [run.eq_def]
  simp

/-- Step equation: any other character inside a token is accumulated. -/
theorem run_tok_push {c : Char} (rest temp out : List Char) (h : c ≠ '}') :
    run (c :: rest) (.tok temp) out = run rest (.tok (temp ++ [c])) out := by
  rw [run.eq_def]
  simp [h]

/-- Appending an opening brace, an ordinary character and a tail with no
closing brace to an input on which the loop succeeds leaves the result
unchanged: the opened token is never closed, so its characters are
silently dropped when the input runs out. -/
theorem run_append_unclosed {c : Char} {rest : List Char}
    (hc1 : c ≠ '{') (hc2 : c ≠ '}') (hr : '}' ∉ rest) (p : List Char)
    (m : Mode) (out : List Char) :
    ∀ o, run p m out = .ok o → run (p ++ '{' :: c :: rest) m out = .ok o := by
  have hsuf : '}' ∉ '{' :: c :: rest := by
    intro hm
    rcases List.mem_cons.mp hm with hm | hm
    · exact absurd hm.symm (by decide)
    · rcases List.mem_cons.mp hm with hm | hm
      · exact hc2 hm.symm
      · exact hr hm
  induction p, m, out using run.induct with
  | case1 m out =>
    intro o h
    have ho : o = out := by
      rw [run] at h
      exact (Except.ok.injEq .. ▸ h).symm
    subst ho
    rw [List.nil_append]
    cases m with
    | top =>
      rw [run_top_open_tok _ _ hc1 hc2]
      exact run_tok_eof _ _ hr
    | tok temp => exact run_tok_eof _ _ hsuf
  | case2 rest2 temp out ih =>
    intro o h
    rw [run_tok_close_step] at h
    rw [List.cons_append, run_tok_close_step]
    exact ih o h
  | case3 c2 rest2 temp out hne ih =>
    intro o h
    rw [run_tok_push _ _ _ hne] at h
    rw [List.cons_append, run_tok_push _ _ _ hne]
    exact ih o h
  | case4 out =>
    intro o h
    rw [run_top_open_nil] at h
    exact absurd h (by simp)
  | case5 out rest2 ih =>
    intro o h
    rw [run_top_open_open] at h
    rw [List.cons_append, List.cons_append, run_top_open_open]
    exact ih o h
  | case6 out rest2 hne ih =>
    intro o h
    rw [run_top_open_close] at h
    rw [List.cons_append, List.cons_append, run_top_open_close]
    exact ih o h
  | case7 out a rest2 ha1 ha2 ih =>
    intro o h
    rw [run_top_open_tok _ _ ha1 ha2] at h
    rw [List.cons_append, List.cons_append, run_top_open_tok _ _ ha1 ha2]
    exact ih o h
  | case8 out r hne ih =>
    intro o h
    rw [run_top_close_close] at h
    rw [List.cons_append, List.cons_append, run_top_close_close]
    exact ih o h
  | case9 out c2 r hne hne2 =>
    intro o h
    rw [run_top_close_bad _ _ hne] at h
    exact absurd h (by simp)
  | case10 out hne =>
    intro o h
    rw [run_top_close_nil] at h
    exact absurd h (by simp)
  | case11 c2 rest2 out h1 h2 ih =>
    intro o h
    rw [run_top_char _ _ h1 h2] at h
    rw [List.cons_append, run_top_char _ _ h1 h2]
    exact ih o h

/-- C5 counterexample: a template opening a brace token and hitting end of
input neither passes the token through nor errors: the transform succeeds
with the opening brace and the accumulated character absent from the
output. -/
theorem unclosed_token_counterexample :
    CFStr.parse "\x7ba" = .ok "" ∧ '{' ∉ ("" : String).data ∧
      ("" : String) ≠ "\x7ba" := by decide

/-- C5 amended: when a template consists of a successfully transformed
prefix, then an opening brace, a character that is neither brace, and a
tail with no closing brace, the transform does not error (in particular
not with the end-of-input error) and does not pass the token through: it
succeeds and silently discards the opening brace and everything
accumulated after it, returning exactly the output of the prefix. -/
theorem unclosed_token_dropped (p : List Char) (c : Char) (rest o : List Char)
    (hp : run p .top [] = .ok o) (hc1 : c ≠ '{') (hc2 : c ≠ '}')
    (hr : '}' ∉ rest) :
    CFStr.parse (String.mk (p ++ '{' :: c :: rest)) = .ok (String.mk o) ∧
      CFStr.parse (String.mk (p ++ '{' :: c :: rest)) ≠ .error CErr.eof := by
  have h2 := run_append_unclosed hc1 hc2 hr p .top [] o hp
  constructor
  · show (run (p ++ '{' :: c :: rest) .top []).map String.mk = _
    rw [h2]
    rfl
  · show (run (p ++ '{' :: c :: rest) .top []).map String.mk ≠ _
    rw [h2]
    exact fun hx => Except.noConfusion hx

/-- Witness for C5 amended with prefix hi, seed character q, tail r. -/
theorem unclosed_token_dropped_witness :
    CFStr.parse (String.mk (("hi" : String).data ++ '{' :: 'q' ::
        ("r" : String).data)) = .ok (String.mk ("hi" : String).data) ∧
      CFStr.parse (String.mk (("hi" : String).data ++ '{' :: 'q' ::
        ("r" : String).data)) ≠ .error CErr.eof :=
  unclosed_token_dropped ("hi" : String).data 'q' ("r" : String).data
    ("hi" : String).data (by decide) (by decide) (by decide) (by decide)

/-- C6: a template made of a prefix on which the transform succeeds, an
opening brace, at least one further character that is neither brace, and
no later closing brace, transforms successfully to exactly the transform
of the prefix alone: the opened token appears nowhere in the output. -/
theorem unclosed_token_ignored (p : List Char) (c : Char)
    (rest o : List Char) (hp : run p .top [] = .ok o) (hc1 : c ≠ '{')
    (hc2 : c ≠ '}') (hr : '}' ∉ rest) :
    CFStr.parse (String.mk (p ++ '{' :: c :: rest)) =
        CFStr.parse (String.mk p) ∧
      CFStr.parse (String.mk (p ++ '{' :: c :: rest)) = .ok (String.mk o) := by
  have h2 := run_append_unclosed hc1 hc2 hr p .top [] o hp
  constructor
  · show (run (p ++ '{' :: c :: rest) .top []).map String.mk =
      (run p .top []).map String.mk
    rw [h2, hp]
  · show (run (p ++ '{' :: c :: rest) .top []).map String.mk = _
    rw [h2]
    rfl

/-- Witness for C6 with prefix ab, seed character x, tail yz. -/
theorem unclosed_token_ignored_witness :
    CFStr.parse (String.mk (("ab" : String).data ++ '{' :: 'x' ::
        ("yz" : String).data)) = CFStr.parse (String.mk ("ab" : String).data) ∧
      CFStr.parse (String.mk (("ab" : String).data ++ '{' :: 'x' ::
        ("yz" : String).data)) = .ok (String.mk ("ab" : String).data) :=
  unclosed_token_ignored ("ab" : String).data 'x' ("yz" : String).data
    ("ab" : String).data (by decide) (by decide) (by decide) (by decide)

/-- Closedness of opening braces is preserved by appending closed lists. -/
theorem closedFrom_append {a b : List Char} (ha : closedFrom a = true)
    (hb : closedFrom b = true) : closedFrom (a ++ b) = true := by
  induction a with
  | nil => simpa using hb
  | cons c rest ih =>
    rw [List.cons_append]
    simp only [closedFrom, Bool.and_eq_true, Bool.or_eq_true,
      decide_eq_true_eq] at ha ⊢
    exact ⟨ha.1.elim (fun h => .inl h)
      (fun h => .inr (List.mem_append.mpr (.inl h))), ih ha.2⟩

/-- A list with no opening brace is trivially closed. -/
theorem closedFrom_no_open {a : List Char} (h : '{' ∉ a) :
    closedFrom a = true := by
  induction a with
  | nil => rfl
  | cons c rest ih =>
    simp only [closedFrom, Bool.and_eq_true, Bool.or_eq_true]
    exact ⟨.inl (bne_iff_ne.mpr fun e => h (e ▸ List.mem_cons_self ..)),
      ih fun hm => h (List.mem_cons_of_mem _ hm)⟩

/-- Any list followed by a closing brace and a closed tail is closed. -/
theorem closedFrom_sep {w z : List Char} (hz : closedFrom z = true) :
    closedFrom (w ++ '}' :: z) = true := by
  induction w with
  | nil =>
    simp only [List.nil_append, closedFrom, Bool.and_eq_true, Bool.or_eq_true]
    exact ⟨.inl (by decide), hz⟩
  | cons c rest ih =>
    rw [List.cons_append]
    simp only [closedFrom, Bool.and_eq_true, Bool.or_eq_true, decide_eq_true_eq]
    exact ⟨.inr (List.mem_append.mpr (.inr (List.mem_cons_self ..))), ih⟩

/-- Token resolution preserves closedness of the output buffer: every
branch appends either a brace-free ANSI string or a chunk whose opening
braces all precede its final closing brace. -/
theorem resolveTemp_closed {temp out : List Char} (h : closedFrom out = true) :
    closedFrom (resolveTemp temp out) = true := by
  unfold resolveTemp
  cases hn : name2ansi (String.mk temp) with
  | some a =>
    exact closedFrom_append h (closedFrom_no_open (name2ansi_val_facts hn))
  | none =>
    cases hs : splitOnce ':' temp with
    | none =>
      refine closedFrom_append h ?_
      simp only [closedFrom, Bool.and_eq_true, Bool.or_eq_true, decide_eq_true_eq]
      exact ⟨.inr (List.mem_append.mpr (.inr (List.mem_cons_self ..))),
        closedFrom_sep rfl⟩
    | some p =>
      obtain ⟨b2, t⟩ := p
      dsimp only
      cases hn2 : name2ansi (String.mk t) with
      | some a =>
        have hrst : closedFrom rst = true := closedFrom_no_open (by decide)
        have hansi : closedFrom a.data = true :=
          closedFrom_no_open (name2ansi_val_facts hn2)
        have hchunk : closedFrom ('{' :: (b2 ++ '}' :: rst)) = true := by
          simp only [closedFrom, Bool.and_eq_true, Bool.or_eq_true,
            decide_eq_true_eq]
          exact ⟨.inr (List.mem_append.mpr (.inr (List.mem_cons_self ..))),
            closedFrom_sep (closedFrom_no_open (by decide))⟩
        exact closedFrom_append (closedFrom_append (closedFrom_append h hrst)
          hansi) hchunk
      | none =>
        refine closedFrom_append h ?_
        simp only [closedFrom, Bool.and_eq_true, Bool.or_eq_true,
          decide_eq_true_eq]
        exact ⟨.inr (List.mem_append.mpr (.inr (List.mem_cons_self ..))),
          closedFrom_sep rfl⟩

/-- Absence of doubled opening braces is inherited by tails. -/
theorem noDouble_tail {a : Char} {l : List Char}
    (h : noDouble (a :: l) = true) : noDouble l = true := by
  cases l with
  | nil => rfl
  | cons b rest =>
    rw [noDouble] at h
    exact ((Bool.and_eq_true ..).mp h).2

/-- The loop keeps the output buffer closed whenever the input has no
doubled opening brace and the run succeeds. -/
theorem run_closed (l : List Char) (m : Mode) (out : List Char) :
    noDouble l = true → closedFrom out = true →
      ∀ res, run l m out = .ok res → closedFrom res = true := by
  induction l, m, out using run.induct with
  | case1 m out =>
    intro hnd hcf res h
    rw [run] at h
    cases h
    exact hcf
  | case2 rest temp out ih =>
    intro hnd hcf res h
    rw [run_tok_close_step] at h
    exact ih (noDouble_tail hnd) (resolveTemp_closed hcf) res h
  | case3 c rest temp out hne ih =>
    intro hnd hcf res h
    rw [run_tok_push _ _ _ hne] at h
    exact ih (noDouble_tail hnd) hcf res h
  | case4 out =>
    intro _ _ res h
    rw [run_top_open_nil] at h
    exact absurd h (by simp)
  | case5 out rest ih =>
    intro hnd hcf res h
    rw [noDouble] at hnd
    simp at hnd
  | case6 out rest hne ih =>
    intro hnd hcf res h
    rw [run_top_open_close] at h
    exact ih (noDouble_tail (noDouble_tail hnd))
      (closedFrom_append hcf (by decide)) res h
  | case7 out a rest ha1 ha2 ih =>
    intro hnd hcf res h
    rw [run_top_open_tok _ _ ha1 ha2] at h
    exact ih (noDouble_tail (noDouble_tail hnd)) hcf res h
  | case8 out r hne ih =>
    intro hnd hcf res h
    rw [run_top_close_close] at h
    exact ih (noDouble_tail (noDouble_tail hnd))
      (closedFrom_append hcf (by decide)) res h
  | case9 out c2 r hne hne2 =>
    intro hnd hcf res h
    rw [run_top_close_bad _ _ hne] at h
    exact absurd h (by simp)
  | case10 out hne =>
    intro _ _ res h
    rw [run_top_close_nil] at h
    exact absurd h (by simp)
  | case11 c rest out h1 h2 ih =>
    intro hnd hcf res h
    rw [run_top_char _ _ h1 h2] at h
    refine ih (noDouble_tail hnd)
      (closedFrom_append hcf (closedFrom_no_open fun hm => ?_)) res h
    exact h1 (List.mem_singleton.mp hm).symm

/-- C4 counterexample: the doubled-opening-brace escape emits a lone
opening brace that is never followed by any closing brace in the output. -/
theorem braces_closed_counterexample :
    CFStr.parse "\x7b\x7b" = .ok "\x7b" ∧ '{' ∈ ("\x7b" : String).data ∧
      '}' ∉ ("\x7b" : String).data := by decide

/-- C4 amended: for every template with no doubled opening brace on which
the transform succeeds, every opening brace of the output is eventually
followed by a closing brace. -/
theorem output_braces_closed (T o : String)
    (hnd : noDouble T.data = true) (h : CFStr.parse T = .ok o) :
    closedFrom o.data = true :=
  run_closed T.data .top [] hnd rfl o.data (parse_ok_iff.mp h)

/-- Witness for C4 amended at a pass-through template. -/
theorem output_braces_closed_witness :
    noDouble ("a\x7bb\x7dc" : String).data = true ∧
      closedFrom ("a\x7bb\x7dc" : String).data = true :=
  ⟨by decide, output_braces_closed "a\x7bb\x7dc" "a\x7bb\x7dc"
    (by decide) (by decide)⟩

/-- Scan step: a closing brace ends an open token. -/
theorem spec_tok_close (rest : List Char) :
    specBadClosing ('}' :: rest) true = specBadClosing rest false := by
  rw [specBadClosing.eq_def]
  simp

/-- Scan step: any other character stays inside the token. -/
theorem spec_tok_push {c : Char} (rest : List Char) (h : c ≠ '}') :
    specBadClosing (c :: rest) true = specBadClosing rest true := by
  rw [specBadClosing.eq_def]
  simp [h]

/-- Scan step: an opening brace at the end of input is not the
closing-brace condition. -/
theorem spec_top_open_nil : specBadClosing ['{'] false = false := by
  rw [specBadClosing.eq_def]
  simp

/-- Scan step: a doubled opening brace stays at top level. -/
theorem spec_top_open_open (r : List Char) :
    specBadClosing ('{' :: '{' :: r) false = specBadClosing r false := by
  rw [specBadClosing.eq_def]
  simp

/-- Scan step: an opening brace immediately closed stays at top level. -/
theorem spec_top_open_close (r : List Char) :
    specBadClosing ('{' :: '}' :: r) false = specBadClosing r false := by
  rw [specBadClosing.eq_def]
  simp

/-- Scan step: an opening brace with an ordinary character opens a token. -/
theorem spec_top_open_tok {c : Char} (r : List Char) (h1 : c ≠ '{')
    (h2 : c ≠ '}') :
    specBadClosing ('{' :: c :: r) false = specBadClosing r true := by
  rw [specBadClosing.eq_def]
  simp [h1, h2]

/-- Scan step: a doubled closing brace stays at top level. -/
theorem spec_top_close_close (r : List Char) :
    specBadClosing ('}' :: '}' :: r) false = specBadClosing r false := by
  rw [specBadClosing.eq_def]
  simp

/-- Scan step: a lone top-level closing brace is the condition. -/
theorem spec_top_close_bad {c : Char} (r : List Char) (h : c ≠ '}') :
    specBadClosing ('}' :: c :: r) false = true := by
  rw [specBadClosing.eq_def]
  simp [h]

/-- Scan step: a final top-level closing brace is the condition. -/
theorem spec_top_close_nil : specBadClosing ['}'] false = true := by
  rw [specBadClosing.eq_def]
  simp

/-- Scan step: a literal character stays at top level. -/
theorem spec_top_char {c : Char} (rest : List Char) (h1 : c ≠ '{')
    (h2 : c ≠ '}') :
    specBadClosing (c :: rest) false = specBadClosing rest false := by
  rw [specBadClosing.eq_def]
  simp [h1, h2]

/-- The loop reports the unexpected-text error exactly when the
specification scan meets a bad top-level closing brace, in any mode and
with any output accumulated. -/
theorem run_text_iff (l : List Char) (m : Mode) (out : List Char) :
    run l m out = .error CErr.text ↔ specBadClosing l (isTok m) = true := by
  induction l, m, out using run.induct with
  | case1 m out =>
    rw [run, specBadClosing.eq_def]
    simp
  | case2 rest temp out ih =>
    dsimp only [isTok] at ih ⊢
    rw [run_tok_close_step, spec_tok_close]
    exact ih
  | case3 c rest temp out hne ih =>
    dsimp only [isTok] at ih ⊢
    rw [run_tok_push _ _ _ hne, spec_tok_push _ hne]
    exact ih
  | case4 out =>
    rw [run_top_open_nil]
    dsimp only [isTok]
    rw [spec_top_open_nil]
    simp
  | case5 out rest ih =>
    dsimp only [isTok] at ih ⊢
    rw [run_top_open_open, spec_top_open_open]
    exact ih
  | case6 out rest hne ih =>
    dsimp only [isTok] at ih ⊢
    rw [run_top_open_close, spec_top_open_close]
    exact ih
  | case7 out a rest ha1 ha2 ih =>
    dsimp only [isTok] at ih ⊢
    rw [run_top_open_tok _ _ ha1 ha2, spec_top_open_tok _ ha1 ha2]
    exact ih
  | case8 out r hne ih =>
    dsimp only [isTok] at ih ⊢
    rw [run_top_close_close, spec_top_close_close]
    exact ih
  | case9 out c2 r hne hne2 =>
    dsimp only [isTok]
    rw [run_top_close_bad _ _ hne, spec_top_close_bad _ hne]
    simp
  | case10 out hne =>
    dsimp only [isTok]
    rw [run_top_close_nil, spec_top_close_nil]
    simp
  | case11 c rest out h1 h2 ih =>
    dsimp only [isTok] at ih ⊢
    rw [run_top_char _ _ h1 h2, spec_top_char _ h1 h2]
    exact ih

/-- C7: the transform fails with the unexpected-text error exactly when
the left-to-right scan meets a closing brace at top level that is not
immediately followed by another closing brace; in particular the template
that is a single closing brace fails so. -/
theorem closing_brace_error_iff :
    (∀ l : List Char, CFStr.parse (String.mk l) = .error CErr.text ↔
        specBadClosing l false = true) ∧
      CFStr.parse "\x7d" = .error CErr.text := by
  constructor
  · intro l
    rw [parse_error_iff]
    exact run_text_iff l .top []
  · rw [parse_error_iff]
    exact run_top_close_nil []
